import Mathlib

/-!
# Verification of the BIST backtesting core (src/app.py)

Shallow embedding of the indicator, strategy, portfolio-simulation and
metrics code of `src/app.py` over `ℚ`.  A pandas/NumPy NaN is modelled as
`none` in `Option ℚ`; a float value is modelled as `some q`.  All pandas
comparisons against NaN are `False`, which the embedding makes explicit at
each branch.
-/

namespace BIST

/-- A pandas float cell: `none` is NaN, `some q` a finite value. -/
abbrev OQ := Option ℚ

/-- `Series.diff()`: element `i` is `xs[i] - xs[i-1]`, element `0` is NaN. -/
def diffQ (xs : List ℚ) : List OQ :=
  (List.range xs.length).map (fun i =>
    if i = 0 then none else some (xs.getD i 0 - xs.getD (i - 1) 0))

/-- Collect a window of cells; NaN anywhere makes the whole window `none`. -/
def allSome : List OQ → Option (List ℚ)
  | [] => some []
  | none :: _ => none
  | some x :: rest => (allSome rest).map (fun l => x :: l)

/-- `Series.rolling(window=w).mean()` at index `i`: mean of `xs[i-w+1..i]`
when the window fits and has no NaN, else NaN (min_periods defaults to `w`). -/
def rollingMeanAt (w : ℕ) (xs : List OQ) (i : ℕ) : OQ :=
  if 1 ≤ w ∧ w ≤ i + 1 then
    match allSome ((List.range w).map (fun k => xs.getD (i - k) none)) with
    | some vs => some (vs.sum / (w : ℚ))
    | none => none
  else none

/-- `Series.rolling(window=w).mean()` as a whole column. -/
def rollingMean (w : ℕ) (xs : List OQ) : List OQ :=
  (List.range xs.length).map (rollingMeanAt w xs)

/-- `calculate_ma(data, period)`: rolling mean of the close column. -/
def calculate_ma (closes : List ℚ) (period : ℕ) : List OQ :=
  rollingMean period (closes.map some)

/-- `delta.where(delta > 0, 0)` of `calculate_rsi`: positive moves, with the
leading NaN of `diff` replaced by `0` (NaN > 0 is False in pandas). -/
def rsiGains (closes : List ℚ) : List ℚ :=
  (diffQ closes).map (fun d => match d with
    | some x => if 0 < x then x else 0
    | none => 0)

/-- `-delta.where(delta < 0, 0)` of `calculate_rsi`: magnitudes of negative
moves, with the leading NaN replaced by `0` (NaN < 0 is False in pandas). -/
def rsiLosses (closes : List ℚ) : List ℚ :=
  (diffQ closes).map (fun d => match d with
    | some x => if x < 0 then -x else 0
    | none => 0)

/-- `rs = gain / loss; rsi = 100 - 100 / (1 + rs)` on one bar, in
float semantics: `g / 0` with `g ≠ 0` is ±inf and the outer expression
collapses to `100`; `0 / 0` is NaN and propagates. -/
def rsiOfMeans (g l : ℚ) : OQ :=
  if l = 0 then (if g = 0 then none else some 100)
  else some (100 - 100 / (1 + g / l))

/-- Combine the rolling gain/loss means of one bar; NaN propagates. -/
def rsiCell (g l : OQ) : OQ :=
  match g, l with
  | some g, some l => rsiOfMeans g l
  | _, _ => none

/-- `calculate_rsi(data, period)` of src/app.py. -/
def calculate_rsi (closes : List ℚ) (period : ℕ) : List OQ :=
  List.zipWith rsiCell
    (rollingMean period ((rsiGains closes).map some))
    (rollingMean period ((rsiLosses closes).map some))

/-- `ma_crossover_strategy(data, short_period, long_period)`: Signal is `0`
before index `short_period`, and from there `1` where `MA_Short > MA_Long`
(a comparison with NaN is False, hence `0`). -/
def ma_crossover_strategy (closes : List ℚ) (short_period long_period : ℕ) :
    List ℤ :=
  (List.range closes.length).map (fun i =>
    if i < short_period then 0
    else match (calculate_ma closes short_period).getD i none,
               (calculate_ma closes long_period).getD i none with
      | some a, some b => if b < a then 1 else 0
      | _, _ => 0)

/-- `rsi_strategy(data, rsi_period, oversold, overbought)`: per-bar
`np.where(RSI < oversold, 1, 0)` then `np.where(RSI > overbought, -1, ·)`;
both comparisons are False on NaN. -/
def rsi_strategy (closes : List ℚ) (rsi_period : ℕ) (oversold overbought : ℚ) :
    List ℤ :=
  (calculate_rsi closes rsi_period).map (fun r => match r with
    | some v => if overbought < v then -1 else if v < oversold then 1 else 0
    | none => 0)

/-- `data['Position'] = data['Signal'].diff()`: NaN at index 0. -/
def positionDiff (sig : List ℤ) : List (Option ℤ) :=
  (List.range sig.length).map (fun i =>
    if i = 0 then none else some (sig.getD i 0 - sig.getD (i - 1) 0))

/-- The mutable loop state of `calculate_performance_metrics`:
`portfolio_value` (the cash balance), `shares`, `position`. -/
structure PortState where
  portfolio_value : ℚ
  shares : ℚ
  position : ℕ
  deriving DecidableEq

/-- One iteration of the loop body: buy when `Position == 1` and flat,
sell when `Position == -1` and long, otherwise leave the state alone. -/
def stepState (close : ℚ) (pd : Option ℤ) (s : PortState) : PortState :=
  if pd = some 1 ∧ s.position = 0 then
    { portfolio_value := s.portfolio_value
      shares := s.portfolio_value / close
      position := 1 }
  else if pd = some (-1) ∧ s.position = 1 then
    { portfolio_value := s.shares * close
      shares := 0
      position := 0 }
  else s

/-- The value appended to `portfolio_values` for a bar. -/
def equityOf (close : ℚ) (s : PortState) : ℚ :=
  if s.position = 1 then s.shares * close else s.portfolio_value

/-- The whole loop: per bar, the post-step state and the appended value. -/
def simTrace (s : PortState) : List (ℚ × Option ℤ) → List (PortState × ℚ)
  | [] => []
  | (c, d) :: rest =>
      (stepState c d s, equityOf c (stepState c d s)) :: simTrace (stepState c d s) rest

/-- `portfolio_value = initial_capital; position = 0; shares = 0`. -/
def initState (capital : ℚ) : PortState :=
  { portfolio_value := capital, shares := 0, position := 0 }

/-- The bar list consumed by the loop: close paired with `Position`. -/
def simBars (closes : List ℚ) (sig : List ℤ) : List (ℚ × Option ℤ) :=
  closes.zip (positionDiff sig)

/-- `portfolio_values` as built by the loop of `calculate_performance_metrics`. -/
def portfolio_values (capital : ℚ) (closes : List ℚ) (sig : List ℤ) : List ℚ :=
  (simTrace (initState capital) (simBars closes sig)).map Prod.snd

/-- The loop state after each bar, aligned with `portfolio_values`. -/
def portStates (capital : ℚ) (closes : List ℚ) (sig : List ℤ) : List PortState :=
  (simTrace (initState capital) (simBars closes sig)).map Prod.fst

/-- `Series.pct_change().dropna()`: simple returns of consecutive values. -/
def pctChange (pv : List ℚ) : List ℚ :=
  List.zipWith (fun prev cur => cur / prev - 1) pv pv.tail

/-- `Series.mean()`. -/
def listMean (xs : List ℚ) : ℚ := xs.sum / (xs.length : ℚ)

/-- The square of `Series.std()` (sample variance, `ddof = 1`). -/
def sampleVar (xs : List ℚ) : ℚ :=
  ((xs.map (fun x => (x - listMean xs) ^ 2)).sum) / ((xs.length : ℚ) - 1)

/-- Line 124 of src/app.py:
`(returns.mean() / returns.std()) * np.sqrt(252) if returns.std() != 0 else 0`.
With fewer than two returns the sample std is NaN, `NaN != 0` is True, and
the division propagates NaN (`none`); a zero std takes the `else 0` branch. -/
noncomputable def sharpeOfEquity (pv : List ℚ) : Option ℝ :=
  let rets := pctChange pv
  if rets.length < 2 then none
  else if sampleVar rets = 0 then some 0
  else some (((listMean rets : ℚ) : ℝ) / Real.sqrt ((sampleVar rets : ℚ) : ℝ)
    * Real.sqrt 252)

/-- `(1 + returns).cumprod()` with running accumulator. -/
def cumprodAux (acc : ℚ) : List ℚ → List ℚ
  | [] => []
  | x :: rest => (acc * x) :: cumprodAux (acc * x) rest

/-- `(1 + returns).cumprod()`. -/
def cumprod (xs : List ℚ) : List ℚ := cumprodAux 1 xs

/-- `expanding().max()` after the first element. -/
def runMaxAux (m : ℚ) : List ℚ → List ℚ
  | [] => []
  | x :: rest => (max m x) :: runMaxAux (max m x) rest

/-- `cumulative.expanding().max()`. -/
def runningMax : List ℚ → List ℚ
  | [] => []
  | x :: rest => x :: runMaxAux x rest

/-- `Series.min()`: NaN (`none`) on an empty series. -/
def listMin : List ℚ → Option ℚ
  | [] => none
  | x :: xs => some (xs.foldl min x)

/-- Lines 127-130 of src/app.py: `drawdown.min() * 100`, NaN when the
return series is empty (a one-bar input). -/
def max_drawdown (pv : List ℚ) : Option ℚ :=
  let rets := pctChange pv
  let cum := cumprod (rets.map (fun r => 1 + r))
  let dd := List.zipWith (fun c m => (c - m) / m) cum (runningMax cum)
  (listMin dd).map (fun m => m * 100)

/-- Indices where `Position == v` (NaN compares unequal to everything). -/
def signalIndices (v : ℤ) (sig : List ℤ) : List ℕ :=
  (List.range sig.length).filter
    (fun i => decide ((positionDiff sig).getD i none = some v))

/-- `buy_signals = data[data['Position'] == 1].index`. -/
def buy_signals (sig : List ℤ) : List ℕ := signalIndices 1 sig

/-- `sell_signals = data[data['Position'] == -1].index`. -/
def sell_signals (sig : List ℤ) : List ℕ := signalIndices (-1) sig

/-- `trades = len(buy_signals)`. -/
def trades (sig : List ℤ) : ℕ := (buy_signals sig).length

/-- Lines 135-136: completed pairs `(buy_signals[i], sell_signals[i])` with
a strictly higher close at the sell index. -/
def profitable_trades (closes : List ℚ) (sig : List ℤ) : ℕ :=
  ((List.range (min (buy_signals sig).length (sell_signals sig).length)).filter
    (fun i => decide (closes.getD ((buy_signals sig).getD i 0) 0 <
                      closes.getD ((sell_signals sig).getD i 0) 0))).length

/-- Lines 133-139: `win_rate = profitable_trades / trades * 100` when there
is at least one buy signal, else `0`. -/
def win_rate (closes : List ℚ) (sig : List ℤ) : ℚ :=
  if 0 < trades sig then
    ((profitable_trades closes sig : ℚ) / (trades sig : ℚ)) * 100
  else 0

/-- Number of bars whose Signal moves 0 → 1 from the previous bar: the
spec's `PositionChange = Enter` count. -/
def enterCount (sig : List ℤ) : ℕ :=
  ((List.range sig.length).filter
    (fun i => decide (0 < i ∧ sig.getD (i - 1) 0 = 0 ∧ sig.getD i 0 = 1))).length

/-- Modelled from the spec: win rate as a percentage over the realized
(paired Enter/Exit) trades only, the open trailing position excluded. -/
def win_rate_over_realized (closes : List ℚ) (sig : List ℤ) : ℚ :=
  let completed := min (buy_signals sig).length (sell_signals sig).length
  if 0 < completed then
    ((profitable_trades closes sig : ℚ) / (completed : ℚ)) * 100
  else 0

/-- Modelled from the spec: the error type `InvalidParameterError` of §7,
absent from src/app.py. -/
inductive SpecError where
  | invalidParameter
  deriving DecidableEq

/-- Modelled from the spec: MA crossover with the §7 parameter validation
(`short MA period ≥ long MA period` is rejected before simulation). -/
def ma_crossover_validated (closes : List ℚ) (short_period long_period : ℕ) :
    Except SpecError (List ℤ) :=
  if long_period ≤ short_period then .error .invalidParameter
  else .ok (ma_crossover_strategy closes short_period long_period)

/-- Modelled from the spec: RSI strategy with the §7 parameter validation
(`oversold ≥ overbought` is rejected before simulation). -/
def rsi_validated (closes : List ℚ) (rsi_period : ℕ) (oversold overbought : ℚ) :
    Except SpecError (List ℤ) :=
  if overbought ≤ oversold then .error .invalidParameter
  else .ok (rsi_strategy closes rsi_period oversold overbought)

/-- Default pair used to read off a simulation trace entry. -/
def dfltEntry : PortState × ℚ := (initState 0, 0)

end BIST

namespace BIST

/-! ## General helper lemmas -/

/-- Reading an index-mapped list at a position. -/
theorem getD_range_map {α : Type} (f : ℕ → α) (n i : ℕ) (d : α) :
    ((List.range n).map f).getD i d = if i < n then f i else d := by
  split
  · next h =>
    rw [List.getD_eq_getElem _ _ (by simpa using h)]
    simp
  · next h =>
    rw [List.getD_eq_default _ _ (by simpa using Nat.le_of_not_lt h)]

theorem length_rollingMean (w : ℕ) (xs : List OQ) :
    (rollingMean w xs).length = xs.length := by
  simp [rollingMean]

theorem length_diffQ (xs : List ℚ) : (diffQ xs).length = xs.length := by
  simp [diffQ]

theorem length_rsiGains (closes : List ℚ) : (rsiGains closes).length = closes.length := by
  simp [rsiGains, length_diffQ]

theorem length_rsiLosses (closes : List ℚ) : (rsiLosses closes).length = closes.length := by
  simp [rsiLosses, length_diffQ]

theorem length_calculate_rsi (closes : List ℚ) (period : ℕ) :
    (calculate_rsi closes period).length = closes.length := by
  simp [calculate_rsi, length_rollingMean, length_rsiGains, length_rsiLosses]

theorem length_rsi_strategy (closes : List ℚ) (p : ℕ) (os ob : ℚ) :
    (rsi_strategy closes p os ob).length = closes.length := by
  simp [rsi_strategy, length_calculate_rsi]

theorem length_ma_crossover (closes : List ℚ) (s l : ℕ) :
    (ma_crossover_strategy closes s l).length = closes.length := by
  simp [ma_crossover_strategy]

theorem length_positionDiff (sig : List ℤ) : (positionDiff sig).length = sig.length := by
  simp [positionDiff]

theorem length_simTrace (s : PortState) (bars : List (ℚ × Option ℤ)) :
    (simTrace s bars).length = bars.length := by
  induction bars generalizing s with
  | nil => rfl
  | cons b rest ih => cases b; simp [simTrace, ih]

theorem length_portfolio_values (capital : ℚ) (closes : List ℚ) (sig : List ℤ)
    (hlen : sig.length = closes.length) :
    (portfolio_values capital closes sig).length = closes.length := by
  simp [portfolio_values, simBars, length_simTrace, length_positionDiff, hlen]

/-! ## Simulation-trace lemmas -/

theorem simTrace_getD_zero (s : PortState) (b : ℚ × Option ℤ) (bars : List (ℚ × Option ℤ)) :
    (simTrace s (b :: bars)).getD 0 dfltEntry =
      (stepState b.1 b.2 s, equityOf b.1 (stepState b.1 b.2 s)) := by
  cases b; rfl

/-- The state after bar `i + 1` is one step beyond the state after bar `i`. -/
theorem simTrace_getD_succ (bars : List (ℚ × Option ℤ)) :
    ∀ (s : PortState) (i : ℕ), i + 1 < bars.length →
      (simTrace s bars).getD (i + 1) dfltEntry =
        (stepState (bars.getD (i + 1) (0, none)).1 (bars.getD (i + 1) (0, none)).2
            ((simTrace s bars).getD i dfltEntry).1,
          equityOf (bars.getD (i + 1) (0, none)).1
            (stepState (bars.getD (i + 1) (0, none)).1 (bars.getD (i + 1) (0, none)).2
              ((simTrace s bars).getD i dfltEntry).1)) := by
  induction bars with
  | nil => intro s i h; simp at h
  | cons b rest ih =>
    intro s i h
    cases b with
    | mk c d =>
      cases i with
      | zero =>
        simp only [List.length_cons] at h
        cases rest with
        | nil => simp at h
        | cons b2 rest2 =>
          cases b2 with
          | mk c2 d2 => rfl
      | succ j =>
        have hj : j + 1 < rest.length := by simpa using h
        have := ih (stepState c d s) j hj
        simpa [simTrace] using this

/-- The appended equity of bar `i` is `equityOf` of that bar's close and state. -/
theorem simTrace_getD_equity (bars : List (ℚ × Option ℤ)) :
    ∀ (s : PortState) (i : ℕ), i < bars.length →
      ((simTrace s bars).getD i dfltEntry).2 =
        equityOf (bars.getD i (0, none)).1 ((simTrace s bars).getD i dfltEntry).1 := by
  induction bars with
  | nil => intro s i h; simp at h
  | cons b rest ih =>
    intro s i h
    cases b with
    | mk c d =>
      cases i with
      | zero => rfl
      | succ j =>
        have hj : j < rest.length := by simpa using h
        have := ih (stepState c d s) j hj
        simpa [simTrace] using this

/-- Invariants preserved by `stepState` hold along the whole trace. -/
theorem simTrace_mem_inv (P : PortState → Prop) (bars : List (ℚ × Option ℤ)) :
    ∀ (s : PortState), (∀ b ∈ bars, ∀ t, P t → P (stepState b.1 b.2 t)) → P s →
      ∀ p ∈ simTrace s bars, P p.1 := by
  induction bars with
  | nil => intro s _ _ p hp; simp [simTrace] at hp
  | cons b rest ih =>
    intro s hstep hs p hp
    cases b with
    | mk c d =>
      simp only [simTrace, List.mem_cons] at hp
      rcases hp with rfl | hp
      · exact hstep (c, d) (by simp) s hs
      · exact ih (stepState c d s) (fun b hb => hstep b (by simp [hb]))
          (hstep (c, d) (by simp) s hs) p hp

theorem simBars_getD (closes : List ℚ) (sig : List ℤ) (i : ℕ)
    (hlen : sig.length = closes.length) (hi : i < closes.length) :
    (simBars closes sig).getD i (0, none) =
      (closes.getD i 0, (positionDiff sig).getD i none) := by
  have hz : i < (simBars closes sig).length := by
    simp [simBars, List.length_zip, length_positionDiff, hlen, hi]
  rw [List.getD_eq_getElem _ _ hz]
  have h1 : i < closes.length := hi
  have h2 : i < (positionDiff sig).length := by simp [length_positionDiff, hlen, hi]
  simp [simBars, List.getElem_zip]
  rw [List.getElem?_eq_getElem h1, List.getElem?_eq_getElem h2]
  simp

theorem portfolio_values_getD (capital : ℚ) (closes : List ℚ) (sig : List ℤ) (i : ℕ)
    (hlen : sig.length = closes.length) (hi : i < closes.length) :
    (portfolio_values capital closes sig).getD i 0 =
      ((simTrace (initState capital) (simBars closes sig)).getD i dfltEntry).2 := by
  have hz : i < (simTrace (initState capital) (simBars closes sig)).length := by
    simp [length_simTrace, simBars, List.length_zip, length_positionDiff, hlen, hi]
  rw [portfolio_values, List.getD_eq_getElem _ _ (by simpa using hz),
    List.getD_eq_getElem _ _ hz]
  simp

theorem portStates_getD (capital : ℚ) (closes : List ℚ) (sig : List ℤ) (i : ℕ)
    (hlen : sig.length = closes.length) (hi : i < closes.length) :
    (portStates capital closes sig).getD i (initState 0) =
      ((simTrace (initState capital) (simBars closes sig)).getD i dfltEntry).1 := by
  have hz : i < (simTrace (initState capital) (simBars closes sig)).length := by
    simp [length_simTrace, simBars, List.length_zip, length_positionDiff, hlen, hi]
  rw [portStates, List.getD_eq_getElem _ _ (by simpa using hz),
    List.getD_eq_getElem _ _ hz]
  simp

/-- A step out of a flat state that lands in a flat state changes nothing. -/
theorem stepState_fix_of_zero_zero (c : ℚ) (d : Option ℤ) (s : PortState)
    (h0 : s.position = 0) (h1 : (stepState c d s).position = 0) :
    stepState c d s = s := by
  by_cases hb : d = some 1 ∧ s.position = 0
  · exfalso
    rw [stepState, if_pos hb] at h1
    simp at h1
  · by_cases hs : d = some (-1) ∧ s.position = 1
    · exact absurd hs.2 (by simp [h0])
    · rw [stepState, if_neg hb, if_neg hs]

end BIST

namespace BIST

/-! ## Claim C1 -/

/-- Claim C1: the simulator produces exactly one equity point per bar; on a
bar whose (post-step) position is Flat, the equity equals the current cash
balance (`portfolio_value`) and is constant across consecutive Flat bars; on
a bar whose position is Long, the equity equals `shares` times that bar's
close. -/
theorem c1_equity_curve_invariant (capital : ℚ) (closes : List ℚ) (sig : List ℤ)
    (hlen : sig.length = closes.length) :
    (portfolio_values capital closes sig).length = closes.length
    ∧ (∀ i, i < closes.length →
        (((portStates capital closes sig).getD i (initState 0)).position = 0 →
          (portfolio_values capital closes sig).getD i 0 =
            ((portStates capital closes sig).getD i (initState 0)).portfolio_value)
        ∧ (((portStates capital closes sig).getD i (initState 0)).position = 1 →
          (portfolio_values capital closes sig).getD i 0 =
            ((portStates capital closes sig).getD i (initState 0)).shares * closes.getD i 0))
    ∧ (∀ i, i + 1 < closes.length →
        ((portStates capital closes sig).getD i (initState 0)).position = 0 →
        ((portStates capital closes sig).getD (i + 1) (initState 0)).position = 0 →
        (portfolio_values capital closes sig).getD (i + 1) 0 =
          (portfolio_values capital closes sig).getD i 0) := by
  have hbars : (simBars closes sig).length = closes.length := by
    simp [simBars, List.length_zip, length_positionDiff, hlen]
  refine ⟨length_portfolio_values capital closes sig hlen, ?_, ?_⟩
  · intro i hi
    rw [portfolio_values_getD capital closes sig i hlen hi,
      portStates_getD capital closes sig i hlen hi,
      simTrace_getD_equity _ _ i (by rw [hbars]; exact hi),
      simBars_getD closes sig i hlen hi]
    constructor
    · intro h0
      simp only [equityOf]
      rw [if_neg (by rw [h0]; decide)]
    · intro h1
      simp only [equityOf]
      rw [if_pos h1]
  · intro i hi h0 h1
    have hi' : i < closes.length := Nat.lt_of_succ_lt hi
    rw [portStates_getD capital closes sig i hlen hi'] at h0
    rw [portStates_getD capital closes sig (i + 1) hlen hi] at h1
    have hsucc := simTrace_getD_succ (simBars closes sig) (initState capital) i
      (by rw [hbars]; exact hi)
    have hstfix : ((simTrace (initState capital) (simBars closes sig)).getD (i + 1) dfltEntry).1 =
        ((simTrace (initState capital) (simBars closes sig)).getD i dfltEntry).1 := by
      rw [hsucc]
      rw [hsucc] at h1
      exact stepState_fix_of_zero_zero _ _ _ h0 h1
    rw [portfolio_values_getD capital closes sig (i + 1) hlen hi,
      portfolio_values_getD capital closes sig i hlen hi',
      simTrace_getD_equity _ _ (i + 1) (by rw [hbars]; exact hi),
      simTrace_getD_equity _ _ i (by rw [hbars]; exact hi'),
      hstfix]
    rw [hstfix] at h1
    simp only [equityOf]
    rw [if_neg (by rw [h1]; decide), if_neg (by rw [h1]; decide)]

/-- Witness for C1 on a concrete two-bar run (buy at the second bar). -/
theorem c1_equity_curve_invariant_witness :
    ([0, 1] : List ℤ).length = ([10, 20] : List ℚ).length
    ∧ (portfolio_values 100000 [10, 20] [0, 1]).length = ([10, 20] : List ℚ).length
    ∧ ((portStates 100000 [10, 20] [0, 1]).getD 1 (initState 0)).position = 1
    ∧ (portfolio_values 100000 [10, 20] [0, 1]).getD 1 0 =
        ((portStates 100000 [10, 20] [0, 1]).getD 1 (initState 0)).shares *
          ([10, 20] : List ℚ).getD 1 0 := by
  have hpos : ((portStates 100000 [10, 20] [0, 1]).getD 1 (initState 0)).position = 1 := rfl
  exact ⟨rfl, (c1_equity_curve_invariant 100000 [10, 20] [0, 1] rfl).1, hpos,
    ((c1_equity_curve_invariant 100000 [10, 20] [0, 1] rfl).2.1 1 (by norm_num)).2 hpos⟩

end BIST

namespace BIST

/-! ## Claim C2 -/

/-- Counterexample to C2: with closes `[10, 9, 8.9, 9]`, period 2 and
thresholds 30/70, bar 3 has RSI 50 (strictly between the thresholds), bar 2
carries signal Long (1), yet the signal at bar 3 is 0, not the previous
bar's value: the code recomputes the signal per bar with no persistence. -/
theorem c2_rsi_persistence_counterexample :
    (calculate_rsi [10, 9, 89/10, 9] 2).getD 3 none = some 50
    ∧ (30 : ℚ) < 50 ∧ (50 : ℚ) < 70
    ∧ (rsi_strategy [10, 9, 89/10, 9] 2 30 70).getD 2 0 = 1
    ∧ (rsi_strategy [10, 9, 89/10, 9] 2 30 70).getD 3 0 = 0 := by
  norm_num [rsi_strategy, calculate_rsi, rollingMean, rollingMeanAt, rsiGains, rsiLosses,
    diffQ, allSome, rsiCell, rsiOfMeans, List.range_succ]

/-- Reading the RSI-strategy signal column at one bar. -/
theorem rsi_strategy_getD (closes : List ℚ) (p : ℕ) (os ob : ℚ) (i : ℕ) :
    (rsi_strategy closes p os ob).getD i 0 =
      match (calculate_rsi closes p).getD i none with
      | some v => if ob < v then -1 else if v < os then 1 else 0
      | none => 0 := by
  rw [rsi_strategy]
  rcases Nat.lt_or_ge i (calculate_rsi closes p).length with hi | hi
  · rw [List.getD_eq_getElem _ _ (by simpa using hi), List.getElem_map,
      List.getD_eq_getElem _ _ hi]
  · rw [List.getD_eq_default _ _ (by simpa using hi), List.getD_eq_default _ _ hi]

/-- Claim C2 as amended: at any bar whose RSI lies between the thresholds
(inclusive), the RSI strategy's signal is always Flat (0), regardless of the
previous bar's signal; there is no persistence. -/
theorem c2_rsi_neutral_signal_flat (closes : List ℚ) (p : ℕ) (os ob : ℚ) (i : ℕ) (v : ℚ)
    (hv : (calculate_rsi closes p).getD i none = some v)
    (h1 : os ≤ v) (h2 : v ≤ ob) :
    (rsi_strategy closes p os ob).getD i 0 = 0 := by
  rw [rsi_strategy_getD, hv]
  simp only [if_neg (not_lt.mpr h2), if_neg (not_lt.mpr h1)]

/-- Witness for the amended C2 at the concrete neutral bar of the
counterexample run. -/
theorem c2_rsi_neutral_signal_flat_witness :
    (rsi_strategy [10, 9, 89/10, 9] 2 30 70).getD 3 0 = 0 :=
  c2_rsi_neutral_signal_flat [10, 9, 89/10, 9] 2 30 70 3 50
    (by norm_num [calculate_rsi, rollingMean, rollingMeanAt, rsiGains, rsiLosses,
      diffQ, allSome, rsiCell, rsiOfMeans, List.range_succ])
    (by norm_num) (by norm_num)

/-! ## Claim C3 -/

/-- Counterexample to C3: on the constant series `[10, 10, 10]` with period
2, the rolling mean of losses at bar 2 is exactly 0, but the rolling mean of
gains is also 0, so `rs = 0 / 0` is NaN and the RSI at that bar is NaN
(`none`), not 100. -/
theorem c3_rsi_zero_loss_counterexample :
    (rollingMean 2 ((rsiLosses [10, 10, 10]).map some)).getD 2 none = some 0
    ∧ (calculate_rsi [10, 10, 10] 2).getD 2 none = none := by
  norm_num [calculate_rsi, rollingMean, rollingMeanAt, rsiGains, rsiLosses,
    diffQ, allSome, rsiCell, rsiOfMeans, List.range_succ]

/-- Reading `calculate_rsi` at one bar from the two rolling means. -/
theorem zipWith_rsiCell_getD (a : List OQ) :
    ∀ (b : List OQ), a.length = b.length → ∀ i,
      (List.zipWith rsiCell a b).getD i none = rsiCell (a.getD i none) (b.getD i none) := by
  induction a with
  | nil =>
    intro b hb i
    cases b with
    | nil => simp [rsiCell]
    | cons y ys => simp at hb
  | cons x xs ih =>
    intro b hb i
    cases b with
    | nil => simp at hb
    | cons y ys =>
      cases i with
      | zero => rfl
      | succ j =>
        simpa using ih ys (by simpa using hb) j

/-- Claim C3 as amended: at a bar where the rolling mean of losses is zero,
the RSI equals 100 only when the rolling mean of gains is non-zero; when the
gains mean is also zero, the RSI is NaN (`none`). -/
theorem c3_rsi_zero_loss_positive_gain (closes : List ℚ) (p : ℕ) (i : ℕ) (g : ℚ)
    (hl : (rollingMean p ((rsiLosses closes).map some)).getD i none = some 0)
    (hg : (rollingMean p ((rsiGains closes).map some)).getD i none = some g) :
    (calculate_rsi closes p).getD i none = if g = 0 then none else some 100 := by
  rw [calculate_rsi, zipWith_rsiCell_getD _ _
      (by simp [length_rollingMean, length_rsiGains, length_rsiLosses]) i, hg, hl]
  simp [rsiCell, rsiOfMeans]

/-- Witness for the amended C3: strictly rising closes produce a zero loss
mean with positive gain mean, and RSI is exactly 100 there. -/
theorem c3_rsi_zero_loss_positive_gain_witness :
    (calculate_rsi [10, 11, 12] 2).getD 2 none = some 100 := by
  have h := c3_rsi_zero_loss_positive_gain [10, 11, 12] 2 2 1
    (by norm_num [rollingMean, rollingMeanAt, rsiLosses, diffQ, allSome, List.range_succ])
    (by norm_num [rollingMean, rollingMeanAt, rsiGains, diffQ, allSome, List.range_succ])
  simpa using h

end BIST

namespace BIST

/-! ## Claim C4 -/

/-- Counterexample to C4: with two Enter signals and one completed trade
(a winner), the code reports 50 (winners over all Enter signals), while the
percentage over realized trades only would be 100: the denominator is
`trades`, not the realized-trade count. -/
theorem c4_win_rate_denominator_counterexample :
    win_rate [10, 10, 12, 10] [0, 1, 0, 1] = 50
    ∧ win_rate_over_realized [10, 10, 12, 10] [0, 1, 0, 1] = 100 := by
  norm_num [win_rate, win_rate_over_realized, trades, profitable_trades,
    buy_signals, sell_signals, signalIndices, positionDiff, List.range_succ, List.filter,
    show decide ((none : Option ℤ) = some 1) = false from rfl,
    show decide ((none : Option ℤ) = some (-1)) = false from rfl,
    show decide ((10 : ℚ) < 12) = true from rfl]

/-- The winning-pair count never exceeds the Enter-signal count. -/
theorem profitable_le_trades (closes : List ℚ) (sig : List ℤ) :
    profitable_trades closes sig ≤ trades sig := by
  calc profitable_trades closes sig
      ≤ (List.range (min (buy_signals sig).length (sell_signals sig).length)).length :=
        List.length_filter_le _ _
    _ = min (buy_signals sig).length (sell_signals sig).length := List.length_range _
    _ ≤ (buy_signals sig).length := Nat.min_le_left _ _

/-- Claim C4 as amended: `win_rate` is 100 times the number of winning
completed buy/sell pairs divided by `trades` (the count of all buy signals,
an open trailing Enter included); it lies in [0, 100] and equals 0 when
`trades` is 0. -/
theorem c4_win_rate_bounds (closes : List ℚ) (sig : List ℤ) :
    0 ≤ win_rate closes sig ∧ win_rate closes sig ≤ 100
    ∧ (trades sig = 0 → win_rate closes sig = 0)
    ∧ win_rate closes sig =
        (if 0 < trades sig then
          ((profitable_trades closes sig : ℚ) / (trades sig : ℚ)) * 100 else 0) := by
  refine ⟨?_, ?_, ?_, rfl⟩
  · rw [win_rate]
    split
    · positivity
    · exact le_refl 0
  · rw [win_rate]
    split
    · next ht =>
      have htq : (0 : ℚ) < (trades sig : ℚ) := by exact_mod_cast ht
      have hle : (profitable_trades closes sig : ℚ) / (trades sig : ℚ) ≤ 1 := by
        rw [div_le_one htq]
        exact_mod_cast profitable_le_trades closes sig
      calc (profitable_trades closes sig : ℚ) / (trades sig : ℚ) * 100
          ≤ 1 * 100 := by
            apply mul_le_mul_of_nonneg_right hle
            norm_num
        _ = 100 := by norm_num
    · norm_num
  · intro h0
    rw [win_rate, if_neg (by omega)]

/-- Witness for the amended C4 on the counterexample run and on a signal
series with no Enter at all. -/
theorem c4_win_rate_bounds_witness :
    0 ≤ win_rate [10, 10, 12, 10] [0, 1, 0, 1]
    ∧ win_rate [10, 10, 12, 10] [0, 1, 0, 1] ≤ 100
    ∧ win_rate [10, 10, 12, 10] [0, 0, 0, 0] = 0 :=
  ⟨(c4_win_rate_bounds [10, 10, 12, 10] [0, 1, 0, 1]).1,
   (c4_win_rate_bounds [10, 10, 12, 10] [0, 1, 0, 1]).2.1,
   (c4_win_rate_bounds [10, 10, 12, 10] [0, 0, 0, 0]).2.2.1
     (by norm_num [trades, buy_signals, signalIndices, positionDiff,
       List.range_succ, List.filter,
       show decide ((none : Option ℤ) = some 1) = false from rfl])⟩

/-! ## Claim C5 -/

/-- Reading the `Position` column at one index. -/
theorem positionDiff_getD (sig : List ℤ) (i : ℕ) :
    (positionDiff sig).getD i none =
      if i < sig.length then
        (if i = 0 then none else some (sig.getD i 0 - sig.getD (i - 1) 0))
      else none := by
  rw [positionDiff, getD_range_map]

/-- Claim C5: for a Flat/Long signal series, `trades` counts exactly the
Enter transitions (a bar whose signal moves 0 to 1), an unmatched trailing
Enter included, so it is at least (and can strictly exceed) the number of
completed buy/sell pairs used for the win rate. -/
theorem c5_trade_count_enters (sig : List ℤ) (h01 : ∀ x ∈ sig, x = 0 ∨ x = 1) :
    trades sig = enterCount sig
    ∧ min (buy_signals sig).length (sell_signals sig).length ≤ trades sig
    ∧ (∃ sg : List ℤ, (∀ x ∈ sg, x = 0 ∨ x = 1) ∧
        min (buy_signals sg).length (sell_signals sg).length < trades sg) := by
  refine ⟨?_, Nat.min_le_left _ _, ?_⟩
  · rw [trades, buy_signals, signalIndices, enterCount]
    congr 1
    apply List.filter_congr
    intro i hi
    rw [List.mem_range] at hi
    rw [positionDiff_getD, if_pos hi]
    rcases Nat.eq_zero_or_pos i with rfl | hpos
    · simp
    · rw [if_neg (Nat.pos_iff_ne_zero.mp hpos)]
      have hi1 : i - 1 < sig.length := lt_of_le_of_lt (Nat.sub_le i 1) hi
      have ha := h01 (sig.getD i 0) (by rw [List.getD_eq_getElem _ _ hi]; exact List.getElem_mem hi)
      have hb := h01 (sig.getD (i - 1) 0)
        (by rw [List.getD_eq_getElem _ _ hi1]; exact List.getElem_mem hi1)
      rw [decide_eq_decide]
      constructor
      · intro h
        rw [Option.some_inj] at h
        exact ⟨hpos, by omega, by omega⟩
      · rintro ⟨-, hb0, ha1⟩
        rw [Option.some_inj]
        omega
  · refine ⟨[0, 1], by decide, ?_⟩
    norm_num [trades, buy_signals, sell_signals, signalIndices, positionDiff,
      List.range_succ, List.filter,
      show decide ((none : Option ℤ) = some 1) = false from rfl,
      show decide ((none : Option ℤ) = some (-1)) = false from rfl]

/-- Witness for C5 on a concrete Flat/Long signal series. -/
theorem c5_trade_count_enters_witness :
    trades [0, 1, 1, 0] = enterCount [0, 1, 1, 0]
    ∧ min (buy_signals [0, 1, 1, 0]).length (sell_signals [0, 1, 1, 0]).length ≤
        trades [0, 1, 1, 0] :=
  ⟨(c5_trade_count_enters [0, 1, 1, 0] (by decide)).1,
   (c5_trade_count_enters [0, 1, 1, 0] (by decide)).2.1⟩

end BIST

namespace BIST

/-! ## Claim C6 -/

/-- Counterexample to C6: the RSI strategy emits the signal value −1 (not in
the claimed enumeration `{0, 1}`), and a direct flip (a per-bar signal jump
of −2, Long to sell) is ignored by the simulator step — neither an Exit nor
an Enter happens, the state is unchanged. -/
theorem c6_signal_enum_counterexample :
    (rsi_strategy [10, 9, 89/10, 12] 2 30 70).getD 3 0 = -1
    ∧ ¬((-1 : ℤ) = 0 ∨ (-1 : ℤ) = 1)
    ∧ stepState 10 (some (-2)) ⟨100, 10, 1⟩ = ⟨100, 10, 1⟩ := by
  norm_num [rsi_strategy, calculate_rsi, rollingMean, rollingMeanAt, rsiGains, rsiLosses,
    diffQ, allSome, rsiCell, rsiOfMeans, List.range_succ, stepState]

/-- Claim C6 as amended: the MA-crossover signal takes values in `{0, 1}`,
the RSI signal takes values in `{−1, 0, 1}`, and any per-bar `Position`
difference other than exactly 1 or −1 (in particular the ±2 of a direct
flip) leaves the simulator state untouched instead of being split into an
Exit followed by an Enter. -/
theorem c6_signal_ranges_flip_ignored (closes : List ℚ) (s l p : ℕ) (os ob : ℚ) :
    (∀ x ∈ ma_crossover_strategy closes s l, x = 0 ∨ x = 1)
    ∧ (∀ x ∈ rsi_strategy closes p os ob, x = -1 ∨ x = 0 ∨ x = 1)
    ∧ (∀ (c : ℚ) (st : PortState) (d : Option ℤ), d ≠ some 1 → d ≠ some (-1) →
        stepState c d st = st) := by
  refine ⟨?_, ?_, ?_⟩
  · intro x hx
    simp only [ma_crossover_strategy, List.mem_map] at hx
    obtain ⟨i, hi, rfl⟩ := hx
    rcases Nat.lt_or_ge i s with h | h
    · rw [if_pos h]; exact Or.inl rfl
    · rw [if_neg (not_lt.mpr h)]
      rcases hX : (calculate_ma closes s).getD i none with _ | a
      · exact Or.inl rfl
      · rcases hY : (calculate_ma closes l).getD i none with _ | b
        · exact Or.inl rfl
        · dsimp only
          by_cases hab : b < a
          · rw [if_pos hab]; exact Or.inr rfl
          · rw [if_neg hab]; exact Or.inl rfl
  · intro x hx
    simp only [rsi_strategy, List.mem_map] at hx
    obtain ⟨r, hr, rfl⟩ := hx
    rcases r with _ | v
    · exact Or.inr (Or.inl rfl)
    · dsimp only
      by_cases h1 : ob < v
      · rw [if_pos h1]; exact Or.inl rfl
      · rw [if_neg h1]
        by_cases h2 : v < os
        · rw [if_pos h2]; exact Or.inr (Or.inr rfl)
        · rw [if_neg h2]; exact Or.inr (Or.inl rfl)
  · intro c st d hd1 hd2
    rw [stepState, if_neg (by simp [hd1]), if_neg (by simp [hd2])]

/-- Witness for the amended C6: the opposite direct flip (jump of +2) is
also ignored by the simulator step. -/
theorem c6_signal_ranges_flip_ignored_witness :
    stepState 10 (some 2) ⟨1000, 50, 1⟩ = ⟨1000, 50, 1⟩ :=
  (c6_signal_ranges_flip_ignored [] 0 0 0 0 0).2.2 10 ⟨1000, 50, 1⟩ (some 2)
    (by decide) (by decide)

/-! ## Claim C7 -/

/-- Counterexample to C7: a two-bar run has a single per-bar return, its
sample standard deviation is NaN, the `!= 0` guard passes, and the Sharpe
ratio of the metrics record is NaN (`none`) — not a number. -/
theorem c7_sharpe_nan_counterexample :
    sharpeOfEquity (portfolio_values 100000 [10, 11] [0, 0]) = none := by
  norm_num [sharpeOfEquity, portfolio_values, simBars, simTrace, initState, stepState,
    equityOf, positionDiff, pctChange, List.range_succ]

theorem length_pctChange (pv : List ℚ) : (pctChange pv).length = pv.length - 1 := by
  rw [pctChange, List.length_zipWith, List.length_tail]
  omega

/-- Claim C7 as amended: for an equity curve of at least three positive
values the Sharpe ratio is never NaN: it is 0 when the sample variance of
the per-bar returns is 0, and mean over standard deviation times √252
otherwise; for shorter curves the standard deviation itself is NaN and the
code propagates NaN into the metrics record. -/
theorem c7_sharpe_defined_three_bars (pv : List ℚ) (hqpos : ∀ x ∈ pv, 0 < x)
    (hlen : 3 ≤ pv.length) :
    sharpeOfEquity pv ≠ none
    ∧ (sampleVar (pctChange pv) = 0 → sharpeOfEquity pv = some 0)
    ∧ (sampleVar (pctChange pv) ≠ 0 → sharpeOfEquity pv =
        some (((listMean (pctChange pv) : ℚ) : ℝ) /
          Real.sqrt ((sampleVar (pctChange pv) : ℚ) : ℝ) * Real.sqrt 252)) := by
  have h2 : ¬((pctChange pv).length < 2) := by
    rw [length_pctChange]; omega
  rw [sharpeOfEquity]
  simp only [if_neg h2]
  by_cases hv : sampleVar (pctChange pv) = 0
  · rw [if_pos hv]
    exact ⟨by simp, fun _ => rfl, fun h => absurd hv h⟩
  · rw [if_neg hv]
    exact ⟨by simp, fun h => absurd h hv, fun _ => rfl⟩

/-- Witness for the amended C7: a three-value curve of constant growth has
zero variance of returns and Sharpe ratio exactly 0. -/
theorem c7_sharpe_defined_three_bars_witness :
    sharpeOfEquity [1, 2, 4] = some 0 :=
  (c7_sharpe_defined_three_bars [1, 2, 4] (by norm_num) (by norm_num)).2.1
    (by norm_num [sampleVar, pctChange, listMean])

end BIST

namespace BIST

/-! ## Claim C8 -/

/-- Counterexample to C8: on a one-bar input the return series is empty,
`drawdown.min()` is the NaN of an empty minimum, and `max_drawdown` is NaN
(`none`) — in particular it is not a number less than or equal to 0. -/
theorem c8_drawdown_nan_counterexample :
    max_drawdown (portfolio_values 100000 [10] [0]) = none := by
  norm_num [max_drawdown, portfolio_values, simBars, simTrace, initState, stepState,
    equityOf, positionDiff, pctChange, cumprod, cumprodAux, runningMax, runMaxAux,
    listMin, List.range_succ]

/-- The portfolio step keeps cash and (while Long) shares positive when the
bar's close is positive. -/
theorem simTrace_pos (bars : List (ℚ × Option ℤ)) :
    ∀ (s : PortState), (∀ b ∈ bars, 0 < b.1) →
      0 < s.portfolio_value → (s.position = 1 → 0 < s.shares) →
      ∀ q ∈ (simTrace s bars).map Prod.snd, 0 < q := by
  induction bars with
  | nil => intro s _ _ _ q hq; simp [simTrace] at hq
  | cons b rest ih =>
    intro s hb hpv hsh q hq
    cases b with
    | mk c d =>
      have hc : 0 < c := hb (c, d) (by simp)
      have hstep : 0 < (stepState c d s).portfolio_value ∧
          ((stepState c d s).position = 1 → 0 < (stepState c d s).shares) := by
        rw [stepState]
        split
        · exact ⟨hpv, fun _ => div_pos hpv hc⟩
        · split
          · next hcond =>
            have hsh1 : 0 < s.shares := hsh hcond.2
            exact ⟨mul_pos hsh1 hc, by simp⟩
          · exact ⟨hpv, hsh⟩
      simp only [simTrace, List.map_cons, List.mem_cons] at hq
      rcases hq with rfl | hq
      · rw [equityOf]
        split
        · next hp1 => exact mul_pos (hstep.2 hp1) hc
        · exact hstep.1
      · exact ih (stepState c d s) (fun b hb2 => hb b (by simp [hb2]))
          hstep.1 hstep.2 q hq

/-- Every equity value of a run with positive capital and closes is positive. -/
theorem portfolio_values_pos (capital : ℚ) (closes : List ℚ) (sig : List ℤ)
    (hcap : 0 < capital) (hcl : ∀ c ∈ closes, 0 < c) :
    ∀ q ∈ portfolio_values capital closes sig, 0 < q := by
  intro q hq
  refine simTrace_pos (simBars closes sig) (initState capital) ?_ hcap (by simp [initState]) q hq
  intro b hb
  exact hcl b.1 (List.of_mem_zip hb).1

/-- Simple returns of a positive series stay above −1. -/
theorem pctChange_gt_neg_one (pv : List ℚ) (hpos : ∀ x ∈ pv, 0 < x) :
    ∀ r ∈ pctChange pv, 0 < 1 + r := by
  induction pv with
  | nil => intro r hr; simp [pctChange] at hr
  | cons a t ih =>
    intro r hr
    cases t with
    | nil => simp [pctChange] at hr
    | cons b t2 =>
      have hstep : pctChange (a :: b :: t2) = (b / a - 1) :: pctChange (b :: t2) := rfl
      rw [hstep, List.mem_cons] at hr
      rcases hr with rfl | hr
      · have ha : 0 < a := hpos a (by simp)
        have hb : 0 < b := hpos b (by simp)
        have : 0 < b / a := div_pos hb ha
        linarith
      · exact ih (fun x hx => hpos x (by simp [hx])) r hr

theorem cumprodAux_pos (xs : List ℚ) :
    ∀ (acc : ℚ), 0 < acc → (∀ x ∈ xs, 0 < x) → ∀ c ∈ cumprodAux acc xs, 0 < c := by
  induction xs with
  | nil => intro acc _ _ c hc; simp [cumprodAux] at hc
  | cons x rest ih =>
    intro acc hacc hxs c hc
    have hx : 0 < x := hxs x (by simp)
    rw [cumprodAux, List.mem_cons] at hc
    rcases hc with rfl | hc
    · exact mul_pos hacc hx
    · exact ih (acc * x) (mul_pos hacc hx) (fun y hy => hxs y (by simp [hy])) c hc

theorem foldl_min_le_init (xs : List ℚ) : ∀ (x : ℚ), xs.foldl min x ≤ x := by
  induction xs with
  | nil => intro x; exact le_refl x
  | cons y ys ih =>
    intro x
    calc (y :: ys).foldl min x = ys.foldl min (min x y) := rfl
      _ ≤ min x y := ih (min x y)
      _ ≤ x := min_le_left x y

theorem length_cumprodAux (xs : List ℚ) :
    ∀ acc : ℚ, (cumprodAux acc xs).length = xs.length := by
  induction xs with
  | nil => intro acc; rfl
  | cons x rest ih => intro acc; simp [cumprodAux, ih]

/-- Claim C8 as amended: for a run over at least two bars with positive
capital and closes, `max_drawdown` is a defined number and is at most 0; a
one-bar run instead yields NaN. -/
theorem c8_drawdown_nonpos_two_bars (capital : ℚ) (closes : List ℚ) (sig : List ℤ)
    (hcap : 0 < capital) (hcl : ∀ c ∈ closes, 0 < c)
    (hlen2 : 2 ≤ closes.length) (hsig : sig.length = closes.length) :
    max_drawdown (portfolio_values capital closes sig) ≠ none
    ∧ ∀ d, max_drawdown (portfolio_values capital closes sig) = some d → d ≤ 0 := by
  have hpvlen : (portfolio_values capital closes sig).length = closes.length :=
    length_portfolio_values capital closes sig hsig
  have hretlen : 1 ≤ (pctChange (portfolio_values capital closes sig)).length := by
    rw [length_pctChange, hpvlen]; omega
  have hcumlen : 1 ≤ (cumprod ((pctChange (portfolio_values capital closes sig)).map
      (fun r => 1 + r))).length := by
    rw [cumprod, length_cumprodAux, List.length_map]; exact hretlen
  rcases hcum : cumprod ((pctChange (portfolio_values capital closes sig)).map
      (fun r => 1 + r)) with _ | ⟨c0, crest⟩
  · rw [hcum] at hcumlen; simp at hcumlen
  · have hdd : List.zipWith (fun c m => (c - m) / m)
        (cumprod ((pctChange (portfolio_values capital closes sig)).map (fun r => 1 + r)))
        (runningMax (cumprod ((pctChange (portfolio_values capital closes sig)).map
          (fun r => 1 + r)))) =
        ((c0 - c0) / c0) :: List.zipWith (fun c m => (c - m) / m) crest (runMaxAux c0 crest) := by
      rw [hcum, runningMax, List.zipWith_cons_cons]
    have hmin : max_drawdown (portfolio_values capital closes sig) =
        some (((List.zipWith (fun c m => (c - m) / m) crest (runMaxAux c0 crest)).foldl
          min ((c0 - c0) / c0)) * 100) := by
      rw [max_drawdown]
      simp only [hdd, listMin]
      rfl
    have hm0 : ((List.zipWith (fun c m => (c - m) / m) crest (runMaxAux c0 crest)).foldl
        min ((c0 - c0) / c0)) ≤ 0 := by
      have h1 := foldl_min_le_init
        (List.zipWith (fun c m => (c - m) / m) crest (runMaxAux c0 crest)) ((c0 - c0) / c0)
      have h2 : (c0 - c0) / c0 = 0 := by rw [sub_self, zero_div]
      exact le_trans h1 (le_of_eq h2)
    constructor
    · rw [hmin]; simp
    · intro d hd
      rw [hmin] at hd
      have hdval : d = ((List.zipWith (fun c m => (c - m) / m) crest
          (runMaxAux c0 crest)).foldl min ((c0 - c0) / c0)) * 100 :=
        (Option.some_inj.mp hd).symm
      rw [hdval]
      have := mul_le_mul_of_nonneg_right hm0 (by norm_num : (0:ℚ) ≤ 100)
      simpa using this

/-- Witness for the amended C8 on a concrete two-bar flat run. -/
theorem c8_drawdown_nonpos_two_bars_witness :
    max_drawdown (portfolio_values 100000 [10, 20] [0, 0]) ≠ none
    ∧ (max_drawdown (portfolio_values 100000 [10, 20] [0, 0])).getD 0 ≤ 0 := by
  obtain ⟨h1, h2⟩ := c8_drawdown_nonpos_two_bars 100000 [10, 20] [0, 0]
    (by norm_num) (by norm_num) (by norm_num) (by norm_num)
  refine ⟨h1, ?_⟩
  rcases hmd : max_drawdown (portfolio_values 100000 [10, 20] [0, 0]) with _ | d
  · exact absurd hmd h1
  · have := h2 d hmd
    simpa [hmd] using this

end BIST

namespace BIST

/-! ## Claim C9 -/

/-- Counterexample to C9: with short period 3 ≥ long period 2 the MA
strategy silently computes a full signal series (even emitting Long
signals), and with oversold 70 ≥ overbought 30 the RSI strategy does the
same; the spec-modelled validated variants instead reject both parameter
sets before simulation. The code raises no `InvalidParameterError`. -/
theorem c9_no_validation_counterexample :
    ma_crossover_strategy [5, 4, 3, 2, 1] 3 2 = [0, 0, 0, 1, 1]
    ∧ ma_crossover_validated [5, 4, 3, 2, 1] 3 2 = .error .invalidParameter
    ∧ rsi_strategy [10, 9, 89/10, 9] 2 70 30 = [0, 1, 1, -1]
    ∧ rsi_validated [10, 9, 89/10, 9] 2 70 30 = .error .invalidParameter := by
  norm_num [ma_crossover_strategy, ma_crossover_validated, rsi_validated, calculate_ma,
    rsi_strategy, calculate_rsi, rollingMean, rollingMeanAt, rsiGains, rsiLosses,
    diffQ, allSome, rsiCell, rsiOfMeans, List.range_succ]

/-- Claim C9 as amended: the strategy functions perform no parameter
validation at all — for any parameter values, valid or not, they accept the
parameters unchanged and return a complete per-bar signal series; nothing is
raised and nothing is clamped. -/
theorem c9_strategies_total (closes : List ℚ) (s l p : ℕ) (os ob : ℚ) :
    (ma_crossover_strategy closes s l).length = closes.length
    ∧ (rsi_strategy closes p os ob).length = closes.length :=
  ⟨length_ma_crossover closes s l, length_rsi_strategy closes p os ob⟩

/-! ## Claim C10 -/

/-- Claim C10: the simulator's position state is always 0 or 1; a buy signal
converts cash into shares only from position 0, a sell signal converts
shares into cash only from position 1, and a buy while Long or a sell while
Flat leaves cash, shares and position untouched. -/
theorem c10_position_state_machine (capital : ℚ) (closes : List ℚ) (sig : List ℤ) :
    (∀ st ∈ portStates capital closes sig, st.position = 0 ∨ st.position = 1)
    ∧ (∀ (c : ℚ) (s : PortState), s.position = 1 → stepState c (some 1) s = s)
    ∧ (∀ (c : ℚ) (s : PortState), s.position = 0 → stepState c (some (-1)) s = s)
    ∧ (∀ (c : ℚ) (s : PortState), s.position = 0 →
        stepState c (some 1) s =
          { portfolio_value := s.portfolio_value, shares := s.portfolio_value / c,
            position := 1 })
    ∧ (∀ (c : ℚ) (s : PortState), s.position = 1 →
        stepState c (some (-1)) s =
          { portfolio_value := s.shares * c, shares := 0, position := 0 }) := by
  refine ⟨?_, ?_, ?_, ?_, ?_⟩
  · intro st hst
    simp only [portStates, List.mem_map] at hst
    obtain ⟨p, hp, rfl⟩ := hst
    refine simTrace_mem_inv (fun t => t.position = 0 ∨ t.position = 1) _ _ ?_ (Or.inl rfl) p hp
    intro b _ t ht
    rw [stepState]
    split
    · exact Or.inr rfl
    · split
      · exact Or.inl rfl
      · exact ht
  · intro c s h1
    rw [stepState, if_neg (by rw [h1]; simp), if_neg (by simp)]
  · intro c s h0
    rw [stepState, if_neg (by simp), if_neg (by rw [h0]; simp)]
  · intro c s h0
    rw [stepState, if_pos ⟨rfl, h0⟩]
  · intro c s h1
    rw [stepState, if_neg (by simp), if_pos ⟨rfl, h1⟩]

/-- Witness for C10: a buy while already Long is ignored, and a buy from
Flat converts the whole cash balance at the bar's close. -/
theorem c10_position_state_machine_witness :
    stepState 10 (some 1) ⟨300, 7, 1⟩ = ⟨300, 7, 1⟩
    ∧ stepState 10 (some 1) (initState 100000) =
        { portfolio_value := 100000, shares := 100000 / 10, position := 1 } := by
  refine ⟨(c10_position_state_machine 0 [] []).2.1 10 ⟨300, 7, 1⟩ rfl, ?_⟩
  have h := (c10_position_state_machine 0 [] []).2.2.2.1 10 (initState 100000) rfl
  simpa [initState] using h

end BIST
